import Mathlib

/-!
Verification of `src/core/libdeno/exceptions.cc` (deno fork).

The C++ file builds a JSON error report from a v8 diagnostic message and
publishes it into the per-isolate `last_exception_` slot, with special
handling when the isolate is in a forced-termination sequence.

The embedding below mirrors the source value-for-value:
  * `ReplaceAll` / `EscapeString`   — lines 7-18
  * `EncodeMessageAsJSON`           — lines 20-142 (the v8 `Maybe::FromJust`
    crash on `Nothing` is modelled by returning `none`)
  * `EncodeExceptionAsJSON`         — lines 144-152
  * `HandleException`               — lines 154-180
  * `HandleExceptionMessage`        — lines 182-196
v8 itself is an external collaborator; the few v8 facilities used
(`JSON::Stringify` on a string, `Exception::Error`, `Exception::CreateMessage`)
are modelled from the spec's interface description.
-/

namespace Deno

/-- Mirrors `ReplaceAll` (exceptions.cc lines 7-13): scan left to right,
replace each occurrence of `f`, resume scanning right after the inserted
replacement (`pos += to.length()`).  The C++ loop never terminates when the
pattern is empty, so the empty-pattern case is guarded out here; every call
in the source uses a non-empty pattern. -/
def replaceAll (s f t : List Char) : List Char :=
  if h : f ≠ [] ∧ f.isPrefixOf s then
    t ++ replaceAll (s.drop f.length) f t
  else
    match s with
    | [] => []
    | c :: cs => c :: replaceAll cs f t
termination_by s.length
decreasing_by
  · have hpre : f <+: s := List.isPrefixOf_iff_prefix.mp h.2
    have hle : f.length ≤ s.length := hpre.length_le
    have hpos : 0 < f.length := List.length_pos.mpr h.1
    simp only [List.length_drop]
    omega
  · simp

/-- Step-indexed version of the `ReplaceAll` loop (fuel counts loop steps);
`none` means the fuel ran out before the loop finished. -/
def replaceAllFuel : Nat → List Char → List Char → List Char → Option (List Char)
  | 0, _, _, _ => none
  | n + 1, s, f, t =>
    if f.isPrefixOf s then
      (replaceAllFuel n (s.drop f.length) f t).map (fun r => t ++ r)
    else
      match s with
      | [] => some []
      | c :: cs => (replaceAllFuel n cs f t).map (fun r => c :: r)

/-- Mirrors `EscapeString` (exceptions.cc lines 15-18): replace every
double quote by backslash-quote. -/
def EscapeString (s : String) : String :=
  ⟨replaceAll s.data [Char.ofNat 34] [Char.ofNat 92, Char.ofNat 34]⟩

/-- Specification-side description of escaping (the spec's "each
double-quote character replaced by the two-character sequence
backslash, double-quote and every other character unchanged"),
for comparison with `EscapeString`. -/
def escapeSpec : List Char → List Char
  | [] => []
  | c :: cs => (if c = Char.ofNat 34 then [Char.ofNat 92, Char.ofNat 34] else [c]) ++ escapeSpec cs

/-- Substring test on character lists. -/
def containsSub (needle : List Char) : List Char → Bool
  | [] => needle.isEmpty
  | c :: cs => needle.isPrefixOf (c :: cs) || containsSub needle cs

/-- Substring test on strings: `strContains hay needle = true` iff `needle`
occurs contiguously in `hay`. -/
def strContains (hay needle : String) : Bool :=
  containsSub needle.data hay.data

/-- Renders a C++ bool the way the source does (`b ? "true" : "false"`). -/
def boolStr (b : Bool) : String :=
  if b then "true" else "false"

/-- One v8 stack frame, as read by the loop in exceptions.cc lines 68-98.
`scriptName = none` models an empty `GetScriptNameOrSourceURL` handle. -/
structure StackFrame where
  line : Int
  column : Int
  functionName : String
  scriptName : Option String
  isEval : Bool
  isConstructor : Bool
  isWasm : Bool
deriving DecidableEq

/-- A v8 diagnostic message, with exactly the fields `EncodeMessageAsJSON`
reads.  `Option` models the v8 `Maybe` / empty-`MaybeLocal` results, and
`stackTrace = none` models an empty `GetStackTrace` handle (the whole trace
unavailable), while `some l` is an available trace with frames `l`. -/
structure Message where
  text : String
  scriptResourceName : String
  startPosition : Int
  endPosition : Int
  errorLevel : Int
  isSharedCrossOrigin : Bool
  isOpaque : Bool
  sourceLine : Option String
  lineNumber : Option Int
  startColumn : Option Int
  endColumn : Option Int
  stackTrace : Option (List StackFrame)
deriving DecidableEq

/-- Modelled v8 `JSON::Stringify` applied to a string value: the string in
quotes, JSON-escaped (quote, backslash, and common control characters). -/
def jsonStringifyString (s : String) : String :=
  ⟨[Char.ofNat 34] ++
    (s.data.map fun c =>
      if c = Char.ofNat 34 then [Char.ofNat 92, Char.ofNat 34]
      else if c = Char.ofNat 92 then [Char.ofNat 92, Char.ofNat 92]
      else if c = Char.ofNat 10 then [Char.ofNat 92, Char.ofNat 110]
      else if c = Char.ofNat 13 then [Char.ofNat 92, Char.ofNat 114]
      else if c = Char.ofNat 9 then [Char.ofNat 92, Char.ofNat 116]
      else [c]).flatten ++
    [Char.ofNat 34]⟩

/-- The `source_line` stream (exceptions.cc lines 38-43): emitted only when
`GetSourceLine` succeeds, and it is the one field that goes through
`EscapeString`. -/
def sourceLinePiece (m : Message) : String :=
  match m.sourceLine with
  | some v => "\"sourceLine\": \"" ++ EscapeString v ++ "\","
  | none => ""

/-- The `line_number` stream (exceptions.cc lines 45-49). -/
def lineNumberPiece (m : Message) : String :=
  match m.lineNumber with
  | some n => "\"lineNumber\": " ++ toString n ++ ","
  | none => ""

/-- The `start_column` stream (exceptions.cc lines 51-55). -/
def startColumnPiece (m : Message) : String :=
  match m.startColumn with
  | some n => "\"startColumn\": " ++ toString n ++ ","
  | none => ""

/-- The `end_column` stream (exceptions.cc lines 57-61). -/
def endColumnPiece (m : Message) : String :=
  match m.endColumn with
  | some n => "\"endColumn\": " ++ toString n ++ ","
  | none => ""

/-- One frame object of the real-trace branch (exceptions.cc lines 85-93).
The C++ string literals use backslash line continuations, so the literal
run of spaces after each comma (8, and 6 before the closing brace) is part
of the output. -/
def frameJson (f : StackFrame) : String :=
  "\x7b        \"line\": " ++ toString f.line ++
  ",        \"column\": " ++ toString f.column ++
  ",        \"functionName\": \"" ++ f.functionName ++
  "\",        \"scriptName\": \"" ++ f.scriptName.getD "<unknown>" ++
  "\",        \"isEval\": " ++ boolStr f.isEval ++
  ",        \"isConstructor\": " ++ boolStr f.isConstructor ++
  ",        \"isWasm\": " ++ boolStr f.isWasm ++ "      \x7d"

/-- The frame list with the `if (i < count - 1)` comma logic of
exceptions.cc lines 95-97. -/
def framesListJson : List StackFrame → String
  | [] => ""
  | [f] => frameJson f
  | f :: g :: fs => frameJson f ++ "," ++ framesListJson (g :: fs)

/-- The synthetic-frame `line` stream (exceptions.cc lines 102-105).  The
source tests `!maybe_line_number.IsJust()` — note the negation — and then
calls `FromJust()`, which on `Nothing` is a fatal v8 API abort; the abort
is modelled as `none`.  On `Just` the stream stays empty. -/
def syntheticLinePiece (m : Message) : Option String :=
  match m.lineNumber with
  | some _ => some ""
  | none => none

/-- The synthetic-frame `column` stream (exceptions.cc lines 107-110),
with the same inverted `!IsJust()` test on `maybe_start_column`. -/
def syntheticColumnPiece (m : Message) : Option String :=
  match m.startColumn with
  | some _ => some ""
  | none => none

/-- The `stack_trace_json` stream (exceptions.cc lines 63-121): the real
trace rendered frame by frame when the trace handle is non-empty, else a
single synthetic frame whose `scriptName` value is the `JSON::Stringify`
of the script resource name (embedded between explicit quote characters). -/
def stackTraceJson (m : Message) : Option String :=
  match m.stackTrace with
  | some frames => some ("[" ++ framesListJson frames ++ "]")
  | none =>
    match syntheticLinePiece m, syntheticColumnPiece m with
    | some l, some c =>
      some ("[\x7b" ++ l ++ c ++ "\"scriptName\": \"" ++
        jsonStringifyString m.scriptResourceName ++ "\"    \x7d]")
    | _, _ => none

/-- The unconditional head of the `result` stream (exceptions.cc lines
124-131), up to and including the comma after `isOpaque`. -/
def requiredFieldsJson (m : Message) : String :=
  "\x7b    \"message\": \"" ++ m.text ++
  "\",    \"scriptResourceName\": \"" ++ m.scriptResourceName ++
  "\",    \"startPosition\": " ++ toString m.startPosition ++
  ",    \"endPosition\": " ++ toString m.endPosition ++
  ",    \"errorLevel\": " ++ toString m.errorLevel ++
  ",    \"isSharedCrossOrigin\": " ++ boolStr m.isSharedCrossOrigin ++
  ",    \"isOpaque\": " ++ boolStr m.isOpaque ++ ","

/-- Mirrors `EncodeMessageAsJSON` (exceptions.cc lines 20-142): the
`result` stream concatenation of lines 123-137.  `none` propagates the
`FromJust` abort from the synthetic-frame branch. -/
def EncodeMessageAsJSON (m : Message) : Option String :=
  match stackTraceJson m with
  | none => none
  | some st =>
    some (requiredFieldsJson m ++ sourceLinePiece m ++ lineNumberPiece m ++
      startColumnPiece m ++ endColumnPiece m ++ "\"frames\": " ++ st ++ "\x7d")

/-- A v8 exception value as `HandleException` discriminates it:
null, undefined, or an object; for an object, `msg` is the diagnostic
message the engine's `Exception::CreateMessage` derives from it. -/
inductive Value where
  | undefined
  | null
  | obj (msg : Message)
deriving DecidableEq

/-- Mirrors `v->IsNullOrUndefined()`. -/
def Value.isNullOrUndefined : Value → Bool
  | .undefined => true
  | .null => true
  | .obj _ => false

/-- Modelled from the spec: the diagnostic message the engine synthesizes
for an error value carrying text `s` (the spec's "a facility to synthesize
an error value from text"; the spec fixes only that the report's `message`
equals the text, so the positional fields take ordinary engine defaults:
resolved line 1 / column 0, no source line, no stack trace). -/
def errorMessage (s : String) : Message where
  text := s
  scriptResourceName := "<anonymous>"
  startPosition := -1
  endPosition := -1
  errorLevel := 8
  isSharedCrossOrigin := false
  isOpaque := false
  sourceLine := none
  lineNumber := some 1
  startColumn := some 0
  endColumn := none
  stackTrace := none

/-- Modelled v8 `Exception::Error(v8_str(s))`: an error object whose
derived message carries text `s`. -/
def errorValue (s : String) : Value :=
  .obj (errorMessage s)

/-- Modelled v8 `Exception::CreateMessage`: for an object the engine-derived
message attached to it; for null/undefined the engine's generic message for
that value. -/
def CreateMessage : Value → Message
  | .undefined => errorMessage "Uncaught undefined"
  | .null => errorMessage "Uncaught null"
  | .obj m => m

/-- Mirrors `EncodeExceptionAsJSON` (exceptions.cc lines 144-152). -/
def EncodeExceptionAsJSON (v : Value) : Option String :=
  EncodeMessageAsJSON (CreateMessage v)

/-- The per-isolate state `HandleException` touches: the termination flag
(`IsExecutionTerminating` / `CancelTerminateExecution` /
`TerminateExecution`) and the `DenoIsolate::last_exception_` slot. -/
structure EngineState where
  terminating : Bool
  lastException : String
deriving DecidableEq

/-- Mirrors `HandleException` (exceptions.cc lines 154-180).  When
terminating: cancel the signal, substitute a synthesized
"execution terminated" error for a null/undefined value, recurse, then
re-assert the signal.  Otherwise encode and publish into the slot.
`none` models the process aborting inside `EncodeExceptionAsJSON`
(in which case the source never reaches `TerminateExecution`). -/
def HandleException (s : EngineState) (v : Value) : Option EngineState :=
  if s.terminating then
    match HandleException { s with terminating := false }
        (if v.isNullOrUndefined then errorValue "execution terminated" else v) with
    | none => none
    | some s2 => some { s2 with terminating := true }
  else
    match EncodeExceptionAsJSON v with
    | none => none
    | some json => some { s with lastException := json }
termination_by (if s.terminating then 1 else 0)
decreasing_by simp_all

/-- Counts the recursive self-invocations `HandleException` performs,
following the same branch structure as the source. -/
def HandleExceptionCalls (s : EngineState) (v : Value) : Nat :=
  if s.terminating then
    1 + HandleExceptionCalls { s with terminating := false }
      (if v.isNullOrUndefined then errorValue "execution terminated" else v)
  else 0
termination_by (if s.terminating then 1 else 0)
decreasing_by simp_all

/-- Mirrors `HandleExceptionMessage` (exceptions.cc lines 182-196): while
terminating, delegate to `HandleException` with `undefined`; otherwise
encode the message itself and publish. -/
def HandleExceptionMessage (s : EngineState) (m : Message) : Option EngineState :=
  if s.terminating then
    HandleException s Value.undefined
  else
    match EncodeMessageAsJSON m with
    | none => none
    | some json => some { s with lastException := json }

/-- Whitespace skipper for the JSON syntax checker. -/
def skipWs : List Char → List Char
  | c :: cs =>
    if c = Char.ofNat 32 ∨ c = Char.ofNat 10 ∨ c = Char.ofNat 9 ∨ c = Char.ofNat 13 then
      skipWs cs
    else c :: cs
  | [] => []

/-- Consumes a JSON string body after the opening quote; lenient: any
escaped character and raw control characters are accepted. -/
def eatStringBody : List Char → Option (List Char)
  | [] => none
  | c :: cs =>
    if c = Char.ofNat 34 then some cs
    else if c = Char.ofNat 92 then
      match cs with
      | [] => none
      | _ :: cs2 => eatStringBody cs2
    else eatStringBody cs

/-- Characters a (lenient) JSON number may contain. -/
def numChar (c : Char) : Bool :=
  c.isDigit || c = Char.ofNat 45 || c = Char.ofNat 43 || c = Char.ofNat 46 ||
  c = Char.ofNat 101 || c = Char.ofNat 69

/-- Mode of the fuel-indexed JSON syntax checker: a value, the members of
an object after a first key is known to follow, or the elements of an
array after a first element is known to follow. -/
inductive JMode where
  | val
  | members
  | elements

/-- Fuel-indexed JSON syntax checker, lenient on string escapes and number
shape, strict on structure; returns the unconsumed remainder on success. -/
def jsonEat : Nat → JMode → List Char → Option (List Char)
  | 0, _, _ => none
  | n + 1, .val, input =>
    match skipWs input with
    | [] => none
    | c :: cs =>
      if c = Char.ofNat 123 then
        match skipWs cs with
        | d :: ds => if d = Char.ofNat 125 then some ds else jsonEat n .members (d :: ds)
        | [] => none
      else if c = Char.ofNat 91 then
        match skipWs cs with
        | d :: ds => if d = Char.ofNat 93 then some ds else jsonEat n .elements (d :: ds)
        | [] => none
      else if c = Char.ofNat 34 then
        eatStringBody cs
      else if c = Char.ofNat 116 then
        if "rue".data.isPrefixOf cs then some (cs.drop 3) else none
      else if c = Char.ofNat 102 then
        if "alse".data.isPrefixOf cs then some (cs.drop 4) else none
      else if c = Char.ofNat 110 then
        if "ull".data.isPrefixOf cs then some (cs.drop 3) else none
      else if numChar c then
        some (cs.dropWhile numChar)
      else none
  | n + 1, .members, input =>
    match skipWs input with
    | c :: cs =>
      if c = Char.ofNat 34 then
        match eatStringBody cs with
        | none => none
        | some rest =>
          match skipWs rest with
          | d :: ds =>
            if d = Char.ofNat 58 then
              match jsonEat n .val ds with
              | none => none
              | some rest2 =>
                match skipWs rest2 with
                | e :: es =>
                  if e = Char.ofNat 44 then jsonEat n .members es
                  else if e = Char.ofNat 125 then some es
                  else none
                | [] => none
            else none
          | [] => none
      else none
    | [] => none
  | n + 1, .elements, input =>
    match jsonEat n .val input with
    | none => none
    | some rest =>
      match skipWs rest with
      | e :: es =>
        if e = Char.ofNat 44 then jsonEat n .elements es
        else if e = Char.ofNat 93 then some es
        else none
      | [] => none

/-- JSON syntactic validity of a string: the checker consumes one value
and only whitespace remains.  The checker is lenient (it accepts a
superset of JSON), so `jsonValid s = false` soundly certifies that `s`
is not valid JSON. -/
def jsonValid (s : String) : Bool :=
  match jsonEat (2 * s.data.length + 8) .val s.data with
  | some rest => (skipWs rest).isEmpty
  | none => false

/-! Concrete inputs used to evaluate the code at specific points. -/

/-- A plain diagnostic message with every positional field resolved and no
stack trace available. -/
def mSynth : Message where
  text := "boom"
  scriptResourceName := "main.ts"
  startPosition := 10
  endPosition := 15
  errorLevel := 8
  isSharedCrossOrigin := false
  isOpaque := false
  sourceLine := none
  lineNumber := some 7
  startColumn := some 3
  endColumn := some 4
  stackTrace := none

/-- A plain stack frame. -/
def fDemo : StackFrame where
  line := 1
  column := 2
  functionName := "f"
  scriptName := some "s.ts"
  isEval := false
  isConstructor := false
  isWasm := false

/-- Like `mSynth` but with a one-frame stack trace available. -/
def mTrace : Message :=
  { mSynth with stackTrace := some [fDemo] }

/-- A message whose text contains a double quote, with a stack trace
available (so that only the unescaped quote can break the output). -/
def mQuote : Message :=
  { mSynth with text := "a\"b", stackTrace := some [fDemo] }

/-- A message with an unresolved line number but a resolved start column,
with a stack trace available. -/
def mNoLine : Message :=
  { mSynth with lineNumber := none, stackTrace := some [fDemo] }

/-- A message whose stack trace is available but has zero frames. -/
def mEmptyTrace : Message :=
  { mSynth with stackTrace := some [] }

/-- The report string the code produces for the exception value `mQuote`. -/
def rQuote : String :=
  (EncodeExceptionAsJSON (Value.obj mQuote)).getD ""

/-- The report string the code produces for the exception value `mTrace`. -/
def rTrace : String :=
  (EncodeExceptionAsJSON (Value.obj mTrace)).getD ""

/-! Helper lemmas on strings and the substring test. -/

theorem strData_append (a b : String) : (a ++ b).data = a.data ++ b.data := by
  cases a
  cases b
  rfl

theorem strEq_of_data (a b : String) (h : a.data = b.data) : a = b := by
  cases a
  cases b
  exact congrArg String.mk h

theorem piece_append_ne_empty (x y z : String) (hx : x.data ≠ []) : x ++ y ++ z ≠ "" := by
  intro he
  have hd := congrArg String.data he
  rw [strData_append, strData_append] at hd
  exact hx (List.append_eq_nil.mp ((List.append_eq_nil.mp hd).1)).1

theorem containsSub_of_isPrefixOf (t hay : List Char) (h : t.isPrefixOf hay = true) :
    containsSub t hay = true := by
  cases hay with
  | nil =>
    cases t with
    | nil => rfl
    | cons c cs => simp [List.isPrefixOf] at h
  | cons c cs => simp [containsSub, h]

theorem containsSub_append_mid (pre t post : List Char) :
    containsSub t (pre ++ (t ++ post)) = true := by
  induction pre with
  | nil =>
    apply containsSub_of_isPrefixOf
    exact List.isPrefixOf_iff_prefix.mpr (List.prefix_append t post)
  | cons c cs ih => simp [containsSub, ih]

theorem strContains_factor (hay a t b : String) (h : hay = a ++ (t ++ b)) :
    strContains hay t = true := by
  subst h
  unfold strContains
  rw [strData_append, strData_append]
  exact containsSub_append_mid _ _ _

/-! Unfolding lemmas for the two branches of `HandleException` (it is
defined by well-founded recursion, so these replace definitional
unfolding), and the publication behaviour they imply. -/

theorem handleException_eq_false (s : EngineState) (v : Value) (h : s.terminating = false) :
    HandleException s v =
      match EncodeExceptionAsJSON v with
      | none => none
      | some json => some { s with lastException := json } := by
  unfold HandleException
  rw [h]
  simp

theorem handleException_eq_true (s : EngineState) (v : Value) (h : s.terminating = true) :
    HandleException s v =
      match HandleException { s with terminating := false }
          (if v.isNullOrUndefined then errorValue "execution terminated" else v) with
      | none => none
      | some s2 => some { s2 with terminating := true } := by
  conv_lhs => unfold HandleException
  rw [h]
  simp

theorem handleExceptionCalls_eq_one (s : EngineState) (v : Value) (h : s.terminating = true) :
    HandleExceptionCalls s v = 1 := by
  unfold HandleExceptionCalls
  rw [h]
  simp
  unfold HandleExceptionCalls
  simp

/-- Every completed `HandleException` call publishes exactly the encoding
of the (possibly substituted) exception value into the slot, and leaves
the termination flag as it found it. -/
theorem handleException_publishes (s : EngineState) (v : Value) (s' : EngineState)
    (h : HandleException s v = some s') :
    EncodeExceptionAsJSON
        (if s.terminating && v.isNullOrUndefined then
          errorValue "execution terminated" else v) = some s'.lastException ∧
      s'.terminating = s.terminating := by
  cases hb : s.terminating with
  | false =>
    rw [handleException_eq_false s v hb] at h
    cases he : EncodeExceptionAsJSON v with
    | none => rw [he] at h; exact absurd h (by simp)
    | some j =>
      rw [he] at h
      simp only [Option.some.injEq] at h
      subst h
      simp [hb, he]
  | true =>
    rw [handleException_eq_true s v hb] at h
    cases hi : HandleException { s with terminating := false }
        (if v.isNullOrUndefined then errorValue "execution terminated" else v) with
    | none => rw [hi] at h; exact absurd h (by simp)
    | some s2 =>
      rw [hi] at h
      simp only [Option.some.injEq] at h
      subst h
      have hinner := handleException_eq_false { s with terminating := false }
        (if v.isNullOrUndefined then errorValue "execution terminated" else v) rfl
      rw [hinner] at hi
      cases he : EncodeExceptionAsJSON
          (if v.isNullOrUndefined then errorValue "execution terminated" else v) with
      | none => rw [he] at hi; exact absurd hi (by simp)
      | some j =>
        rw [he] at hi
        simp only [Option.some.injEq] at hi
        subst hi
        constructor
        · simpa using he
        · simp

/-- Every completed `HandleExceptionMessage` call publishes exactly the
synthetic "execution terminated" report (when terminating) or the
encoding of the message (otherwise), and preserves the flag. -/
theorem handleExceptionMessage_publishes (s : EngineState) (m : Message) (s' : EngineState)
    (h : HandleExceptionMessage s m = some s') :
    (if s.terminating then EncodeExceptionAsJSON (errorValue "execution terminated")
      else EncodeMessageAsJSON m) = some s'.lastException ∧
      s'.terminating = s.terminating := by
  cases hb : s.terminating with
  | false =>
    unfold HandleExceptionMessage at h
    rw [hb] at h
    simp only [Bool.false_eq_true, if_false] at h
    cases he : EncodeMessageAsJSON m with
    | none => rw [he] at h; exact absurd h (by simp)
    | some j =>
      rw [he] at h
      simp only [Option.some.injEq] at h
      subst h
      simp [hb, he]
  | true =>
    unfold HandleExceptionMessage at h
    rw [hb] at h
    simp only [if_true] at h
    have := handleException_publishes s Value.undefined s' h
    rw [hb] at this
    simpa using this

/-! Claim theorems. -/

set_option maxRecDepth 10000

/-- C1: evaluation at a failing input.  The claim says
`EncodeMessageAsJSON` always produces syntactically valid JSON; at the
plain message `mSynth` (no stack trace available, all positional fields
resolved) the code completes but the output is not parseable, because the
synthetic frame emits `"scriptName": ""main.ts""` — the JSON-stringified
(hence already quoted) resource name embedded between a second pair of
quote characters. -/
theorem encodeMessage_output_not_valid_json :
    (EncodeMessageAsJSON mSynth).map
      (fun s => !jsonValid s && strContains s "\"scriptName\": \"\"main.ts\"\"") =
      some true := by decide

/-- C3: evaluation at the failing inputs.  The claim says report
construction never aborts and unresolved fields are omitted; but when the
stack trace is unavailable and `lineNumber` (or `startColumn`) is
unresolved, the synthetic-frame branch tests `!IsJust()` and then calls
`FromJust()` on `Nothing`, a fatal v8 abort (modelled as `none`), so no
report is produced at all. -/
theorem encodeMessage_aborts_on_unresolved_position :
    EncodeMessageAsJSON { mSynth with lineNumber := none } = none ∧
    EncodeMessageAsJSON { mSynth with startColumn := none } = none := by decide

/-- C4: evaluation against the claim.  The claim says the synthetic frame
carries the resolved `lineNumber` under the `line` key and the resolved
`startColumn` under `column`, each omitted exactly when unresolved.  The
code inverts the condition: at `mSynth` (both resolved, no trace) the
synthetic frame contains neither a `line` nor a `column` key, and when
`lineNumber` is unresolved the code aborts instead of omitting. -/
theorem synthetic_frame_condition_inverted :
    (EncodeMessageAsJSON mSynth).map
      (fun s => !strContains s "\"line\"" && !strContains s "\"column\"") = some true ∧
    EncodeMessageAsJSON { mSynth with lineNumber := none } = none := by decide

/-- C5: evaluation at a failing input.  The claim says a double quote in
the message text is escaped in the serialized `message` field; but
`EncodeMessageAsJSON` passes only `sourceLine` through `EscapeString` and
embeds the message text raw, so at `mQuote` (text `a"b`, stack trace
available) the quote appears unescaped and the output is not parseable. -/
theorem message_quote_not_escaped :
    (EncodeMessageAsJSON mQuote).map
      (fun s => strContains s "\"message\": \"a\"b\"," &&
        !strContains s "a\\\"b" && !jsonValid s) = some true := by decide

/-- C6: counterexample.  The claim says `frames` never serializes as an
empty sequence; but the fallback frame is synthesized only when the stack
trace handle is empty (unavailable), so a message whose trace is available
with zero frames serializes `frames` as the empty array `[]`. -/
theorem frames_serializes_empty_on_zero_frame_trace :
    stackTraceJson mEmptyTrace = some "[]" ∧
    (EncodeMessageAsJSON mEmptyTrace).map
      (fun s => strContains s "\"frames\": []\x7d") = some true := by decide

/-- The serialized synthetic "execution terminated" report carries that
text in its `message` field. -/
theorem syntheticReport_message_text :
    (EncodeExceptionAsJSON (errorValue "execution terminated")).map
      (fun x => strContains x "\"message\": \"execution terminated\"") = some true := by
  decide

/-- C2: a `HandleException` call made while the termination signal is
active first cancels the signal, substitutes a synthesized
"execution terminated" error exactly when the value is null/undefined,
recurses exactly once (the recursive call takes the non-terminating
branch), and re-asserts the signal after the recursive call returns, so
whenever the outer call returns, the signal is active again; the
published report is the encoding of the substituted value, and in the
null/undefined case its `message` field is "execution terminated". -/
theorem handleException_terminating_protocol (s : EngineState) (v : Value)
    (h : s.terminating = true) :
    HandleException s v =
      (HandleException { s with terminating := false }
        (if v.isNullOrUndefined then errorValue "execution terminated" else v)).map
        (fun s2 => { s2 with terminating := true }) ∧
    HandleExceptionCalls s v = 1 ∧
    (∀ s', HandleException s v = some s' →
      s'.terminating = true ∧
      EncodeExceptionAsJSON
          (if v.isNullOrUndefined then errorValue "execution terminated" else v) =
        some s'.lastException ∧
      (v.isNullOrUndefined = true →
        strContains s'.lastException "\"message\": \"execution terminated\"" = true)) := by
  refine ⟨?_, handleExceptionCalls_eq_one s v h, ?_⟩
  · rw [handleException_eq_true s v h]
    cases HandleException { s with terminating := false }
        (if v.isNullOrUndefined then errorValue "execution terminated" else v) with
    | none => rfl
    | some s2 => rfl
  · intro s' hs'
    have hpub := handleException_publishes s v s' hs'
    rw [h] at hpub
    simp only [Bool.true_and] at hpub
    have hterm : s'.terminating = true := hpub.2
    have henc : EncodeExceptionAsJSON
        (if v.isNullOrUndefined then errorValue "execution terminated" else v) =
        some s'.lastException := hpub.1
    refine ⟨hterm, henc, ?_⟩
    intro hnull
    rw [hnull] at henc
    simp only [if_true] at henc
    have hmap := syntheticReport_message_text
    rw [henc] at hmap
    simpa using hmap

/-- C2 witness: `handleException_terminating_protocol` at a concrete
terminating state and a null exception value. -/
theorem handleException_terminating_protocol_applied :
    ((HandleException ⟨true, "old"⟩ Value.null).getD ⟨false, ""⟩).terminating = true ∧
    HandleExceptionCalls ⟨true, "old"⟩ Value.null = 1 ∧
    strContains ((HandleException ⟨true, "old"⟩ Value.null).getD ⟨false, ""⟩).lastException
      "\"message\": \"execution terminated\"" = true := by
  have hmain := handleException_terminating_protocol ⟨true, "old"⟩ Value.null rfl
  have hsome : HandleException ⟨true, "old"⟩ Value.null =
      some ((HandleException ⟨true, "old"⟩ Value.null).getD ⟨false, ""⟩) := by
    rw [handleException_eq_true ⟨true, "old"⟩ Value.null rfl,
      handleException_eq_false ⟨false, "old"⟩ _ rfl]
    decide
  have h3 := hmain.2.2 _ hsome
  exact ⟨h3.1, hmain.2.1, h3.2.2 rfl⟩

/-- C8: a `HandleExceptionMessage` call made while the termination signal
is active discards the message and behaves exactly as
`HandleException(context, undefined)`: its result does not depend on the
message at all, and the published report is the synthetic
"execution terminated" report. -/
theorem handleExceptionMessage_terminating_discards (s : EngineState) (m : Message)
    (h : s.terminating = true) :
    HandleExceptionMessage s m = HandleException s Value.undefined ∧
    (∀ m', HandleExceptionMessage s m = HandleExceptionMessage s m') ∧
    (∀ s', HandleExceptionMessage s m = some s' →
      EncodeExceptionAsJSON (errorValue "execution terminated") = some s'.lastException ∧
      strContains s'.lastException "\"message\": \"execution terminated\"" = true) := by
  have heq : ∀ m0 : Message, HandleExceptionMessage s m0 = HandleException s Value.undefined := by
    intro m0
    unfold HandleExceptionMessage
    rw [h]
    simp
  refine ⟨heq m, fun m' => by rw [heq m, heq m'], ?_⟩
  intro s' hs'
  have hpub := handleExceptionMessage_publishes s m s' hs'
  rw [h] at hpub
  simp only [if_true] at hpub
  have henc := hpub.1
  refine ⟨henc, ?_⟩
  have hmap := syntheticReport_message_text
  rw [henc] at hmap
  simpa using hmap

/-- C8 witness: `handleExceptionMessage_terminating_discards` at a
concrete terminating state and the concrete message `mSynth`. -/
theorem handleExceptionMessage_terminating_discards_applied :
    HandleExceptionMessage ⟨true, "old"⟩ mSynth = HandleException ⟨true, "old"⟩ Value.undefined ∧
    HandleExceptionMessage ⟨true, "old"⟩ mSynth = HandleExceptionMessage ⟨true, "old"⟩ mQuote ∧
    strContains ((HandleExceptionMessage ⟨true, "old"⟩ mSynth).getD ⟨false, ""⟩).lastException
      "\"message\": \"execution terminated\"" = true := by
  have hmain := handleExceptionMessage_terminating_discards ⟨true, "old"⟩ mSynth rfl
  have hsome : HandleExceptionMessage ⟨true, "old"⟩ mSynth =
      some ((HandleExceptionMessage ⟨true, "old"⟩ mSynth).getD ⟨false, ""⟩) := by
    rw [hmain.1, handleException_eq_true ⟨true, "old"⟩ Value.undefined rfl,
      handleException_eq_false ⟨false, "old"⟩ _ rfl]
    decide
  exact ⟨hmain.1, hmain.2.1 mQuote, (hmain.2.2 _ hsome).2⟩

/-- C9: every completed `HandleException` / `HandleExceptionMessage` call
overwrites the last-report slot with exactly the encoding of its own
event — a value independent of the slot's previous contents — and after
two consecutive completed exception events the slot holds exactly the
second event's report. -/
theorem lastException_overwrite :
    (∀ (s : EngineState) (v : Value) (s' : EngineState),
      HandleException s v = some s' →
      EncodeExceptionAsJSON
          (if s.terminating && v.isNullOrUndefined then
            errorValue "execution terminated" else v) = some s'.lastException) ∧
    (∀ (s : EngineState) (m : Message) (s' : EngineState),
      HandleExceptionMessage s m = some s' →
      (if s.terminating then EncodeExceptionAsJSON (errorValue "execution terminated")
        else EncodeMessageAsJSON m) = some s'.lastException) ∧
    (∀ (s : EngineState) (v1 v2 : Value) (s1 s2 : EngineState),
      HandleException s v1 = some s1 → HandleException s1 v2 = some s2 →
      EncodeExceptionAsJSON
          (if s1.terminating && v2.isNullOrUndefined then
            errorValue "execution terminated" else v2) = some s2.lastException) :=
  ⟨fun s v s' h => (handleException_publishes s v s' h).1,
   fun s m s' h => (handleExceptionMessage_publishes s m s' h).1,
   fun _ _ v2 s1 s2 _ h2 => (handleException_publishes s1 v2 s2 h2).1⟩

/-- C9 witness: `lastException_overwrite` across two consecutive concrete
exception events — after both complete, the slot holds exactly the second
event's report `rTrace`, not the first event's `rQuote`. -/
theorem lastException_overwrite_applied :
    HandleException ⟨false, "orig"⟩ (Value.obj mQuote) = some ⟨false, rQuote⟩ ∧
    HandleException (⟨false, rQuote⟩ : EngineState) (Value.obj mTrace) =
      some ⟨false, rTrace⟩ ∧
    EncodeExceptionAsJSON (Value.obj mTrace) = some rTrace := by
  have hq : EncodeExceptionAsJSON (Value.obj mQuote) = some rQuote := rfl
  have ht : EncodeExceptionAsJSON (Value.obj mTrace) = some rTrace := rfl
  have h1 : HandleException ⟨false, "orig"⟩ (Value.obj mQuote) = some ⟨false, rQuote⟩ := by
    rw [handleException_eq_false _ _ rfl, hq]
  have h2 : HandleException (⟨false, rQuote⟩ : EngineState) (Value.obj mTrace) =
      some ⟨false, rTrace⟩ := by
    rw [handleException_eq_false _ _ rfl, ht]
  have hmain := lastException_overwrite.2.2 ⟨false, "orig"⟩ (Value.obj mQuote)
    (Value.obj mTrace) _ _ h1 h2
  refine ⟨h1, h2, ?_⟩
  simpa using hmain

/-- Whenever `EncodeMessageAsJSON` produces a report, the report is the
concatenation of the required head, the four optional segments and the
frames value, in stream order. -/
theorem encodeMessage_decomposes (m : Message) (s : String)
    (h : EncodeMessageAsJSON m = some s) :
    ∃ st, stackTraceJson m = some st ∧
      s = requiredFieldsJson m ++ sourceLinePiece m ++ lineNumberPiece m ++
        startColumnPiece m ++ endColumnPiece m ++ "\"frames\": " ++ st ++ "\x7d" := by
  unfold EncodeMessageAsJSON at h
  cases hst : stackTraceJson m with
  | none => rw [hst] at h; exact absurd h (by simp)
  | some st =>
    rw [hst] at h
    simp only [Option.some.injEq] at h
    exact ⟨st, rfl, h.symm⟩

/-- C7 counterexample: a concrete message with `lineNumber` unresolvable,
`startColumn` resolved and the stack trace unavailable; the code aborts
(inverted `!IsJust()` test, then `FromJust()` on `Nothing`) and produces
no serialized report at all, so no output containing `startColumn`
exists — refuting the claim as stated, which promises an output
containing `startColumn` for every such message. -/
theorem startColumn_resolved_but_no_report :
    ({ mSynth with lineNumber := none } : Message).startColumn = some 3 ∧
    ({ mSynth with lineNumber := none } : Message).stackTrace = none ∧
    EncodeMessageAsJSON { mSynth with lineNumber := none } = none := by decide

/-- C7 (amended): whenever a report is produced, it is the concatenation
in which each of the three optional integer segments is controlled solely
by its own field — each segment is empty exactly when its field is
unresolved, and each resolved field's key/value text occurs in the
output; in particular a message with `lineNumber` unresolved but
`startColumn` resolved yields an output containing `startColumn` while
the `lineNumber` segment is empty.  (Unconditionally the claim fails:
when the stack trace is unavailable such a message produces no report at
all — see the counterexample.) -/
theorem optionalKeys_independent (m : Message) (s : String)
    (h : EncodeMessageAsJSON m = some s) :
    (∃ st, stackTraceJson m = some st ∧
      s = requiredFieldsJson m ++ sourceLinePiece m ++ lineNumberPiece m ++
        startColumnPiece m ++ endColumnPiece m ++ "\"frames\": " ++ st ++ "\x7d") ∧
    (lineNumberPiece m = "" ↔ m.lineNumber = none) ∧
    (startColumnPiece m = "" ↔ m.startColumn = none) ∧
    (endColumnPiece m = "" ↔ m.endColumn = none) ∧
    (∀ n, m.lineNumber = some n →
      strContains s ("\"lineNumber\": " ++ toString n ++ ",") = true) ∧
    (∀ n, m.startColumn = some n →
      strContains s ("\"startColumn\": " ++ toString n ++ ",") = true) ∧
    (∀ n, m.endColumn = some n →
      strContains s ("\"endColumn\": " ++ toString n ++ ",") = true) ∧
    (∀ n, m.lineNumber = none → m.startColumn = some n →
      strContains s ("\"startColumn\": " ++ toString n ++ ",") = true ∧
      lineNumberPiece m = "") := by
  obtain ⟨st, hst, hs⟩ := encodeMessage_decomposes m s h
  have hln : lineNumberPiece m = "" ↔ m.lineNumber = none := by
    cases hv : m.lineNumber with
    | none => simp [lineNumberPiece, hv]
    | some n =>
      simp only [lineNumberPiece, hv, reduceCtorEq, iff_false]
      exact piece_append_ne_empty "\"lineNumber\": " (toString n) "," (by decide)
  have hsc : startColumnPiece m = "" ↔ m.startColumn = none := by
    cases hv : m.startColumn with
    | none => simp [startColumnPiece, hv]
    | some n =>
      simp only [startColumnPiece, hv, reduceCtorEq, iff_false]
      exact piece_append_ne_empty "\"startColumn\": " (toString n) "," (by decide)
  have hec : endColumnPiece m = "" ↔ m.endColumn = none := by
    cases hv : m.endColumn with
    | none => simp [endColumnPiece, hv]
    | some n =>
      simp only [endColumnPiece, hv, reduceCtorEq, iff_false]
      exact piece_append_ne_empty "\"endColumn\": " (toString n) "," (by decide)
  have hlnSub : ∀ n, m.lineNumber = some n →
      strContains s ("\"lineNumber\": " ++ toString n ++ ",") = true := by
    intro n hv
    refine strContains_factor s (requiredFieldsJson m ++ sourceLinePiece m) _
      (startColumnPiece m ++ endColumnPiece m ++ "\"frames\": " ++ st ++ "\x7d")
      (strEq_of_data _ _ ?_)
    rw [hs]
    simp [lineNumberPiece, hv, strData_append, List.append_assoc]
  have hscSub : ∀ n, m.startColumn = some n →
      strContains s ("\"startColumn\": " ++ toString n ++ ",") = true := by
    intro n hv
    refine strContains_factor s
      (requiredFieldsJson m ++ sourceLinePiece m ++ lineNumberPiece m) _
      (endColumnPiece m ++ "\"frames\": " ++ st ++ "\x7d")
      (strEq_of_data _ _ ?_)
    rw [hs]
    simp [startColumnPiece, hv, strData_append, List.append_assoc]
  have hecSub : ∀ n, m.endColumn = some n →
      strContains s ("\"endColumn\": " ++ toString n ++ ",") = true := by
    intro n hv
    refine strContains_factor s
      (requiredFieldsJson m ++ sourceLinePiece m ++ lineNumberPiece m ++ startColumnPiece m)
      _ ("\"frames\": " ++ st ++ "\x7d")
      (strEq_of_data _ _ ?_)
    rw [hs]
    simp [endColumnPiece, hv, strData_append, List.append_assoc]
  exact ⟨⟨st, hst, hs⟩, hln, hsc, hec, hlnSub, hscSub, hecSub,
    fun n hnone hsome => ⟨hscSub n hsome, hln.mpr hnone⟩⟩

/-- C7 witness: `optionalKeys_independent` at the concrete message
`mNoLine` (line number unresolved, start column resolved): the output
contains the `startColumn` key and the `lineNumber` segment is empty. -/
theorem optionalKeys_independent_applied :
    strContains ((EncodeMessageAsJSON mNoLine).getD "")
      ("\"startColumn\": " ++ toString (3 : Int) ++ ",") = true ∧
    lineNumberPiece mNoLine = "" := by
  have hmain := optionalKeys_independent mNoLine ((EncodeMessageAsJSON mNoLine).getD "") rfl
  exact hmain.2.2.2.2.2.2.2 3 rfl rfl

/-- A rendered frame object starts with an opening brace. -/
theorem frameJson_starts_brace (f : StackFrame) :
    frameJson f = "\x7b" ++ ("        \"line\": " ++ (toString f.line ++
      (",        \"column\": " ++ (toString f.column ++
      (",        \"functionName\": \"" ++ (f.functionName ++
      ("\",        \"scriptName\": \"" ++ (f.scriptName.getD "<unknown>" ++
      ("\",        \"isEval\": " ++ (boolStr f.isEval ++
      (",        \"isConstructor\": " ++ (boolStr f.isConstructor ++
      (",        \"isWasm\": " ++ (boolStr f.isWasm ++ "      \x7d")))))))))))))) := by
  apply strEq_of_data
  have hsplit : ("\x7b        \"line\": " : String).data =
      ("\x7b" : String).data ++ ("        \"line\": " : String).data := rfl
  simp [frameJson, strData_append, List.append_assoc, hsplit]

/-- A rendered non-empty frame list starts with an opening brace. -/
theorem framesListJson_starts_brace (f : StackFrame) (fs : List StackFrame) :
    ∃ x : String, framesListJson (f :: fs) = "\x7b" ++ x := by
  cases fs with
  | nil => exact ⟨_, frameJson_starts_brace f⟩
  | cons g gs =>
    refine ⟨("        \"line\": " ++ (toString f.line ++
      (",        \"column\": " ++ (toString f.column ++
      (",        \"functionName\": \"" ++ (f.functionName ++
      ("\",        \"scriptName\": \"" ++ (f.scriptName.getD "<unknown>" ++
      ("\",        \"isEval\": " ++ (boolStr f.isEval ++
      (",        \"isConstructor\": " ++ (boolStr f.isConstructor ++
      (",        \"isWasm\": " ++ (boolStr f.isWasm ++ "      \x7d")))))))))))))) ++
      ("," ++ framesListJson (g :: gs)), ?_⟩
    have hf := frameJson_starts_brace f
    apply strEq_of_data
    show (framesListJson (f :: g :: gs)).data = _
    rw [show framesListJson (f :: g :: gs) =
      frameJson f ++ "," ++ framesListJson (g :: gs) from rfl, hf]
    simp [strData_append, List.append_assoc]

/-- Whenever the frames value is produced and the stack trace is not an
available zero-frame trace, the frames value starts with `[` followed by
an object's opening brace. -/
theorem stackTraceJson_starts_nonempty (m : Message) (st : String)
    (hst : stackTraceJson m = some st) (hne : m.stackTrace ≠ some []) :
    ∃ x : String, st = "[\x7b" ++ x := by
  unfold stackTraceJson at hst
  cases htr : m.stackTrace with
  | none =>
    rw [htr] at hst
    cases hl : syntheticLinePiece m with
    | none => rw [hl] at hst; exact absurd hst (by simp)
    | some l =>
      cases hc : syntheticColumnPiece m with
      | none => rw [hl, hc] at hst; exact absurd hst (by simp)
      | some c =>
        rw [hl, hc] at hst
        simp only [Option.some.injEq] at hst
        refine ⟨l ++ (c ++ ("\"scriptName\": \"" ++
          (jsonStringifyString m.scriptResourceName ++ "\"    \x7d]"))), ?_⟩
        rw [← hst]
        apply strEq_of_data
        simp [strData_append, List.append_assoc]
  | some frames =>
    cases frames with
    | nil => exact absurd htr hne
    | cons f fs =>
      rw [htr] at hst
      simp only [Option.some.injEq] at hst
      obtain ⟨x, hx⟩ := framesListJson_starts_brace f fs
      refine ⟨x ++ "]", ?_⟩
      rw [← hst, hx]
      apply strEq_of_data
      have hsplit : ("[\x7b" : String).data =
          ("[" : String).data ++ ("\x7b" : String).data := rfl
      simp [strData_append, List.append_assoc, hsplit]

/-- C6 (amended): whenever a report is produced, the `frames` value is a
non-empty JSON array in every case except an available zero-frame stack
trace: if the trace is unavailable or has at least one frame, the frames
value starts with `[` and an object brace (in particular it is not the
empty array `[]`), and the serialized report contains a non-empty
`frames` array.  (The unamended claim fails on an available zero-frame
trace — see the counterexample.) -/
theorem frames_array_nonempty_cases (m : Message) (s st : String)
    (h : EncodeMessageAsJSON m = some s) (hst : stackTraceJson m = some st)
    (hne : m.stackTrace ≠ some []) :
    (∃ x, st = "[\x7b" ++ x) ∧
    strContains s "\"frames\": [\x7b" = true ∧ st ≠ "[]" := by
  obtain ⟨x, hx⟩ := stackTraceJson_starts_nonempty m st hst hne
  refine ⟨⟨x, hx⟩, ?_, ?_⟩
  · obtain ⟨st0, hst0, hs⟩ := encodeMessage_decomposes m s h
    have hsame : st0 = st := by
      rw [hst] at hst0
      exact (Option.some.injEq _ _ ▸ hst0).symm
    refine strContains_factor s (requiredFieldsJson m ++ sourceLinePiece m ++
      lineNumberPiece m ++ startColumnPiece m ++ endColumnPiece m) _
      (x ++ "\x7d") (strEq_of_data _ _ ?_)
    rw [hs, hsame, hx]
    have hsplit : ("\"frames\": [\x7b" : String).data =
        ("\"frames\": " : String).data ++ ("[\x7b" : String).data := rfl
    simp [strData_append, List.append_assoc, hsplit]
  · intro he
    rw [he] at hx
    have hd := congrArg String.data hx
    rw [strData_append] at hd
    exact absurd (List.head_eq_of_cons_eq (List.tail_eq_of_cons_eq hd)) (by decide)

/-- C6 witness: `frames_array_nonempty_cases` at the concrete message
`mSynth`, whose stack trace is unavailable: the report's `frames` array
holds the synthesized fallback frame. -/
theorem frames_array_nonempty_cases_applied :
    strContains ((EncodeMessageAsJSON mSynth).getD "") "\"frames\": [\x7b" = true ∧
    (stackTraceJson mSynth).getD "" ≠ "[]" := by
  have hmain := frames_array_nonempty_cases mSynth ((EncodeMessageAsJSON mSynth).getD "")
    ((stackTraceJson mSynth).getD "") rfl rfl (by decide)
  exact ⟨hmain.2.1, hmain.2.2⟩

theorem replaceAll_nil (f t : List Char) : replaceAll [] f t = [] := by
  unfold replaceAll
  cases f with
  | nil => simp
  | cons c cs => simp [List.isPrefixOf]

/-- At an occurrence of the pattern, `replaceAll` emits the replacement and
resumes right after the consumed occurrence (it does not rescan the
inserted text). -/
theorem replaceAll_head_match (f s t : List Char) (hf : f ≠ []) :
    replaceAll (f ++ s) f t = t ++ replaceAll s f t := by
  conv_lhs => unfold replaceAll
  have hpre : f.isPrefixOf (f ++ s) = true :=
    List.isPrefixOf_iff_prefix.mpr (List.prefix_append f s)
  rw [dif_pos ⟨hf, hpre⟩, List.drop_left]

/-- Where the pattern does not match, `replaceAll` copies one character
and continues. -/
theorem replaceAll_head_mismatch (c : Char) (s f t : List Char)
    (hp : f.isPrefixOf (c :: s) = false) :
    replaceAll (c :: s) f t = c :: replaceAll s f t := by
  conv_lhs => unfold replaceAll
  rw [dif_neg (by simp [hp])]

/-- The `ReplaceAll` loop finishes within `length + 1` iterations for any
non-empty pattern, producing `replaceAll`. -/
theorem replaceAllFuel_sufficient (f t : List Char) (hf : f ≠ []) :
    ∀ (n : Nat) (s : List Char), s.length < n →
      replaceAllFuel n s f t = some (replaceAll s f t) := by
  intro n
  induction n with
  | zero => exact fun s hs => absurd hs (by omega)
  | succ n ih =>
    intro s hs
    cases hp : f.isPrefixOf s with
    | true =>
      have hpre := List.isPrefixOf_iff_prefix.mp hp
      have h1 : f.length ≤ s.length := hpre.length_le
      have h2 : 0 < f.length := List.length_pos.mpr hf
      have hlt : (s.drop f.length).length < n := by
        simp only [List.length_drop]
        omega
      conv_rhs => rw [replaceAll]
      rw [dif_pos ⟨hf, hp⟩]
      simp only [replaceAllFuel, hp, if_true]
      rw [ih _ hlt]
      rfl
    | false =>
      cases s with
      | nil =>
        simp only [replaceAllFuel, hp]
        rw [replaceAll_nil]
        simp
      | cons c cs =>
        have hlt : cs.length < n := by
          simp only [List.length_cons] at hs
          omega
        rw [replaceAll_head_mismatch c cs f t hp]
        simp only [replaceAllFuel, hp]
        rw [ih _ hlt]
        simp

/-- `replaceAll` with the quote pattern and backslash-quote replacement is
exactly the per-character escaping map. -/
theorem replaceAll_quote_eq_escapeSpec (s : List Char) :
    replaceAll s [Char.ofNat 34] [Char.ofNat 92, Char.ofNat 34] = escapeSpec s := by
  induction s with
  | nil => rw [replaceAll_nil]; rfl
  | cons c cs ih =>
    by_cases hc : c = Char.ofNat 34
    · subst hc
      rw [show (Char.ofNat 34 :: cs) = [Char.ofNat 34] ++ cs from rfl,
        replaceAll_head_match [Char.ofNat 34] cs [Char.ofNat 92, Char.ofNat 34] (by simp),
        ih]
      simp [escapeSpec]
    · have hp : ([Char.ofNat 34] : List Char).isPrefixOf (c :: cs) = false := by
        have hbeq : (Char.ofNat 34 == c) = false := by
          simp only [beq_eq_false_iff_ne, ne_eq]
          exact fun h => hc h.symm
        simp [List.isPrefixOf, hbeq]
      rw [replaceAll_head_mismatch c cs _ _ hp, ih]
      simp [escapeSpec, hc]

/-- C10: for every non-empty pattern the `ReplaceAll` loop terminates —
within `length + 1` iterations, including when the replacement contains
the pattern, because scanning resumes after the inserted text — replacing
each left-to-right non-overlapping occurrence; consequently
`EscapeString` returns its input with every double quote replaced by
backslash-quote and all other characters unchanged. -/
theorem replaceAll_terminates_and_escapes :
    (∀ (s f t : List Char), f ≠ [] →
      replaceAllFuel (s.length + 1) s f t = some (replaceAll s f t)) ∧
    (∀ (f s t : List Char), f ≠ [] →
      replaceAll (f ++ s) f t = t ++ replaceAll s f t) ∧
    (∀ (c : Char) (s f t : List Char), f.isPrefixOf (c :: s) = false →
      replaceAll (c :: s) f t = c :: replaceAll s f t) ∧
    (∀ s : String, EscapeString s = ⟨escapeSpec s.data⟩) :=
  ⟨fun s f t hf => replaceAllFuel_sufficient f t hf (s.length + 1) s (by omega),
   fun f s t hf => replaceAll_head_match f s t hf,
   fun c s f t hp => replaceAll_head_mismatch c s f t hp,
   fun s => congrArg String.mk (replaceAll_quote_eq_escapeSpec s.data)⟩

/-- C10 witness: `replaceAll_terminates_and_escapes` at the concrete
input `a"b` with the quote pattern and the backslash-quote replacement —
a replacement that contains the pattern — and the concrete escape. -/
theorem replaceAll_terminates_and_escapes_applied :
    replaceAllFuel (("a\"b".data).length + 1) "a\"b".data "\"".data "\\\"".data =
      some (replaceAll "a\"b".data "\"".data "\\\"".data) ∧
    EscapeString "a\"b" = "a\\\"b" := by
  constructor
  · exact replaceAll_terminates_and_escapes.1 "a\"b".data "\"".data "\\\"".data (by decide)
  · rw [replaceAll_terminates_and_escapes.2.2.2 "a\"b"]
    decide

end Deno
